import Mathlib

/-!
Verification of the MOSFiT fitting front-end (`mosfit/main.py`) and of the
spec of its fitting core.  Definitions are shallow embeddings: values of the
Python code become Lean values, rationals stand in for the floating-point
numbers that appear (every float literal involved — `0.0`, `100.0` — is
exactly representable), and fallible paths return `Option`/`Except`.
-/

namespace Mosfit

/-! ## Extrapolate-time resolution (main.py, argparse `--extrapolate-time`
and lines 373-375 of `main`).

`argparse` with `nargs='*'`, `type=float`, `default=0.0` yields:
* option absent: the scalar default `0.0`;
* option present with k arguments: a list of k floats (possibly empty).
`main` then rewrites an empty list to the scalar `100.0`. -/

/-- The `extrapolate_time` attribute is either a scalar float or a list of
floats, mirroring the two shapes `argparse` can produce. -/
inductive ExtrapolateTime where
  | scalar (v : ℚ)
  | listVal (vs : List ℚ)
  deriving DecidableEq, Repr

/-- What `argparse` stores in `args.extrapolate_time`: the default scalar
`0.0` when the option is absent, otherwise the (possibly empty) list of
user-supplied values. -/
def parseExtrapolateTime (given : Option (List ℚ)) : ExtrapolateTime :=
  match given with
  | none => .scalar 0
  | some vs => .listVal vs

/-- Lines 373-375 of `main`: an empty-list `extrapolate_time` is replaced by
the scalar `100.0`; every other value is passed through unchanged. -/
def resolveExtrapolateTime (e : ExtrapolateTime) : ExtrapolateTime :=
  match e with
  | .listVal [] => .scalar 100
  | e => e

/-- Tests whether a resolved `extrapolate_time` value is the empty list
(the shape `main` guarantees the fitter never receives). -/
def isEmptyTimeList : ExtrapolateTime → Bool
  | .listVal [] => true
  | _ => false

/-! ## Iteration-count resolution (main.py lines 381-387). -/

/-- Lines 381-387 of `main`: a sentinel `iterations == -1` resolves to `0`
when the events list is the single empty string, and to `1000` otherwise;
any other value is kept. -/
def resolveIterations (iterations : ℤ) (events : List String) : ℤ :=
  if iterations = -1 then
    if events.length = 1 ∧ events.headI = "" then 0 else 1000
  else iterations

/-! ## The fitting core.

The fitting engine itself (`mosfit/fitter.py`) is not part of the sources
at hand; only its command-line front-end is.  The definitions below are
therefore modelled from the specification of that engine (§3-§4.6 of the
spec): parameter space, walker ensembles, the tempered sampling step, the
fracking optimizer and the schedule controller.  Rationals stand in for
real-valued parameters and scores. -/

/-- Modelled from the spec (§3, Parameter): identifier, numeric bounds and
an optional fixed value (`some v` marks the parameter fixed at `v`). -/
structure Param where
  name : String
  lo : ℚ
  hi : ℚ
  fixedVal : Option ℚ
  deriving DecidableEq, Repr

/-- A parameter is free when it carries no fixed value. -/
def isFree (p : Param) : Bool := p.fixedVal.isNone

/-- The free parameters of a model, in declaration order. -/
def freeParams (ps : List Param) : List Param := ps.filter isFree

/-- The number of free parameters. -/
def freeCount (ps : List Param) : ℕ := (freeParams ps).length

/-- Modelled from the spec (§3, Walker): a walker's position is the vector
of free-parameter values; fixed parameters are excluded from it. -/
abbrev Walker := List ℚ

/-- Modelled from the spec (§3, Ensemble): the walkers of one temperature
rung. -/
abbrev Rung := List Walker

/-- Modelled from the spec (§4.2): the score oracle maps a full parameter
vector to its (log-prior, log-likelihood) pair. -/
abbrev Score := List ℚ → ℚ × ℚ

/-- Modelled from the spec (§3, Walker): expand a free-parameter vector
back to a full-model input, re-inserting each fixed parameter's value at
its position. -/
def expandFull : List Param → Walker → List ℚ
  | [], _ => []
  | p :: ps, xs =>
    match p.fixedVal with
    | some v => v :: expandFull ps xs
    | none => xs.headI :: expandFull ps xs.tail

/-- The combined score (log-prior plus log-likelihood) of a walker. -/
def totalScore (score : Score) (ps : List Param) (w : Walker) : ℚ :=
  (score (expandFull ps w)).1 + (score (expandFull ps w)).2

/-- Modelled from the spec (§4.6/§6): the deterministic pseudo-random
stream seeded by the run's seed, a 64-bit linear congruential generator. -/
def lcg (s : ℕ) : ℕ := (6364136223846793005 * s + 1442695040888963407) % 2 ^ 64

/-- Draw a rational in `[0, 1)` from the stream, returning the new state. -/
def randUnit (s : ℕ) : ℚ × ℕ :=
  let t := lcg s
  (((t % 2 ^ 32 : ℕ) : ℚ) / 2 ^ 32, t)

/-- Draw a natural number below `max n 1` from the stream. -/
def randBelow (n : ℕ) (s : ℕ) : ℕ × ℕ :=
  let t := lcg s
  (t % max n 1, t)

/-- Clamp a value into the interval `[lo, hi]`. -/
def clamp (lo hi x : ℚ) : ℚ := max lo (min hi x)

/-- Modelled from the spec (§4.4): the tempered log-acceptance difference,
scaling the likelihood term by the rung's inverse temperature `beta` and
leaving the prior term unscaled. -/
def temperedLogAcceptance (beta : ℚ) (old new : ℚ × ℚ) : ℚ :=
  (new.1 - old.1) + beta * (new.2 - old.2)

/-- Modelled from the spec (§4.4/glossary): the untempered ensemble
sampler's log-acceptance difference. -/
def untemperedLogAcceptance (old new : ℚ × ℚ) : ℚ :=
  (new.1 - old.1) + (new.2 - old.2)

/-- Modelled from the spec (§3, Temperature Ladder): inverse temperature of
rung `r`; rung 0 is the cold chain at `1.0`. -/
def ladderBeta (r : ℕ) : ℚ := 1 / 2 ^ r

/-- Modelled from the spec (§3, Temperature Ladder): the ordered sequence
of `numTemps` inverse temperatures. -/
def ladder (numTemps : ℕ) : List ℚ := (List.range numTemps).map ladderBeta

/-- Modelled from the spec (§4.4): a stretch-move proposal combining the
walker's own position with a partner's position, clamped into bounds. -/
def stretchPropose (fps : List Param) (z : ℚ) (own partner : Walker) : Walker :=
  match fps with
  | [] => []
  | p :: rest =>
    clamp p.lo p.hi (partner.headI + z * (own.headI - partner.headI)) ::
      stretchPropose rest z own.tail partner.tail

/-- Modelled from the spec (§4.4): one sampler move for one walker: pick a
partner from the same rung (excluding itself), propose a stretch move, and
accept by a Metropolis test of the tempered log-acceptance against a
surrogate log-uniform draw. -/
def stepWalker (score : Score) (ps : List Param) (beta : ℚ) (rung : Rung)
    (i : ℕ) (w : Walker) (s : ℕ) : Walker × ℕ :=
  let nw := rung.length
  let rp := randBelow nw s
  let pIdx := if rp.1 = i then (rp.1 + 1) % max nw 1 else rp.1
  let partner := rung.getD pIdx w
  let rz := randUnit rp.2
  let prop := stretchPropose (freeParams ps) (1 / 2 + rz.1) w partner
  let d := temperedLogAcceptance beta (score (expandFull ps w))
    (score (expandFull ps prop))
  let ru := randUnit rz.2
  ((if (ru.1 - 1) * 16 < d then prop else w), ru.2)

/-- Modelled from the spec (§4.4): one sampler step over a whole rung, in
stable walker order; `full` is the rung's state at the start of the step. -/
def stepRung (score : Score) (ps : List Param) (beta : ℚ) (full : Rung) :
    ℕ → Rung → ℕ → Rung × ℕ
  | _, [], s => ([], s)
  | i, w :: ws, s =>
    let a := stepWalker score ps beta full i w s
    let b := stepRung score ps beta full (i + 1) ws a.2
    (a.1 :: b.1, b.2)

/-- Modelled from the spec (§4.4): one sampler step for every rung
independently, each rung tempered by its own inverse temperature. -/
def stepAllRungs (score : Score) (ps : List Param) :
    List ℚ → List Rung → ℕ → List Rung × ℕ
  | [], _, s => ([], s)
  | b :: bs, rungs, s =>
    let a := stepRung score ps b rungs.headI 0 rungs.headI s
    let r := stepAllRungs score ps bs rungs.tail a.2
    (a.1 :: r.1, r.2)

/-- Modelled from the spec (§4.4): pairwise swap proposals between adjacent
rungs, with Metropolis acceptance driven by the temperature difference.
With a single rung there are no adjacent pairs, so no proposals occur. -/
def swapPhase (score : Score) (ps : List Param) :
    List ℚ → List Rung → ℕ → List Rung × ℕ
  | b1 :: b2 :: bs, rungs, s =>
    let r1 := rungs.headI
    let r2 := rungs.tail.headI
    let p1 := randBelow r1.length s
    let p2 := randBelow r2.length p1.2
    let w1 := r1.getD p1.1 []
    let w2 := r2.getD p2.1 []
    let d := (b1 - b2) * ((score (expandFull ps w2)).2 - (score (expandFull ps w1)).2)
    let ru := randUnit p2.2
    let acc := (ru.1 - 1) * 16 < d
    let r1' := r1.set p1.1 (if acc then w2 else w1)
    let r2' := r2.set p2.1 (if acc then w1 else w2)
    let rest := swapPhase score ps (b2 :: bs) (r2' :: rungs.tail.tail) ru.2
    (r1' :: rest.1, rest.2)
  | _, rungs, s => (rungs, s)

/-- Number of local-optimization moves each fracking invocation may spend
per walker (the spec only requires the bound to be finite, §4.6). -/
def frackOptFuel : ℕ := 4

/-- Modelled from the spec (§4.6): a bounded, derivative-free, seeded local
hill climb maximizing the score, used as the fracking optimizer. -/
def localOpt (score : Score) (ps : List Param) :
    ℕ → Walker → ℕ → Walker × ℕ
  | 0, w, s => (w, s)
  | n + 1, w, s =>
    let rz := randUnit s
    let prop := stretchPropose (freeParams ps) (rz.1 - 1 / 2) w w
    let w' := if totalScore score ps w < totalScore score ps prop then prop else w
    localOpt score ps n w' rz.2

/-- Modelled from the spec (§4.6): frack one walker — run the bounded local
optimizer from its current position and replace the position only if the
optimized score is strictly better than the original. -/
def frackWalker (score : Score) (ps : List Param) (w : Walker) (s : ℕ) :
    Walker × ℕ :=
  let c := localOpt score ps frackOptFuel w s
  ((if totalScore score ps w < totalScore score ps c.1 then c.1 else w), c.2)

/-- Modelled from the spec (§4.6): frack every walker of a rung in stable
order (selecting all rung-0 walkers, a selection the spec permits). -/
def frackRungWalkers (score : Score) (ps : List Param) :
    Rung → ℕ → Rung × ℕ
  | [], s => ([], s)
  | w :: ws, s =>
    let a := frackWalker score ps w s
    let b := frackRungWalkers score ps ws a.2
    (a.1 :: b.1, b.2)

/-- Modelled from the spec (§4.6): a fracking invocation acts on the rung-0
ensemble only. -/
def frackRung0 (score : Score) (ps : List Param) (rungs : List Rung)
    (s : ℕ) : List Rung × ℕ :=
  let a := frackRungWalkers score ps rungs.headI s
  (a.1 :: rungs.tail, a.2)

/-- Modelled from the spec (§4.3): draw one walker's free-parameter vector
from the (uniform-in-bounds) prior. -/
def drawWalker : List Param → ℕ → Walker × ℕ
  | [], s => ([], s)
  | p :: rest, s =>
    let ru := randUnit s
    let r := drawWalker rest ru.2
    ((p.lo + ru.1 * (p.hi - p.lo)) :: r.1, r.2)

/-- Modelled from the spec (§4.3): draw a whole rung of `n` walkers. -/
def drawRung (fps : List Param) : ℕ → ℕ → Rung × ℕ
  | 0, s => ([], s)
  | n + 1, s =>
    let a := drawWalker fps s
    let b := drawRung fps n a.2
    (a.1 :: b.1, b.2)

/-- Modelled from the spec (§4.3): walkers at each temperature rung are
initialized independently per rung. -/
def drawRungs (fps : List Param) (nw : ℕ) : ℕ → ℕ → List Rung × ℕ
  | 0, s => ([], s)
  | t + 1, s =>
    let a := drawRung fps nw s
    let b := drawRungs fps nw t a.2
    (a.1 :: b.1, b.2)

/-- Modelled from the spec (§4.5/§6): the configuration surface the
schedule controller consumes. -/
structure FitConfig where
  params : List Param
  numWalkers : ℕ
  numTemps : ℕ
  iterations : ℕ
  postBurn : ℕ
  frackStep : ℕ
  fracking : Bool
  seed : ℕ
  deriving DecidableEq, Repr

/-- Modelled from the spec (§3, Run Phase): the controller's state machine
states. -/
inductive RunPhase where
  | initializing
  | burnIn
  | postBurn
  | converging
  | done
  deriving DecidableEq, Repr

/-- One chain entry: the expanded full-model positions of the rung-0
walkers after one step. -/
abbrev Snapshot := List (List ℚ)

/-- Modelled from the spec (§3, Chain / §6 outputs): what the run hands to
the output collaborator — the terminal phase and the rung-0 chain. -/
structure RunResult where
  phase : RunPhase
  chain : List Snapshot
  deriving DecidableEq, Repr

/-- Modelled from the spec (§7): the fatal error taxonomy of the core. -/
inductive FitError where
  | configurationError
  | initializationError
  deriving DecidableEq, Repr

/-- Modelled from the spec (§4.5, BurnIn): the burn-in phase runs
`max(iterations - post_burn, 0)` steps (truncated subtraction clamps at
zero exactly as the spec's `max`). -/
def burnInSteps (iterations postBurn : ℕ) : ℕ := iterations - postBurn

/-- Modelled from the spec (§6): the steps a run performs in total,
burn-in plus post-burn. -/
def totalSteps (iterations postBurn : ℕ) : ℕ :=
  burnInSteps iterations postBurn + postBurn

/-- Modelled from the spec (§4.5): run one phase of `n` steps: every step
advances all rungs, proposes inter-rung swaps, optionally fracks the
rung-0 ensemble every `frackStep` steps, and appends the rung-0 snapshot
to the chain.  Returns the final rungs, stream state and the phase's
chain segment. -/
def phaseLoop (score : Score) (ps : List Param) (betas : List ℚ)
    (doFrack : Bool) (frackStep : ℕ) :
    ℕ → ℕ → List Rung → ℕ → List Rung × ℕ × List Snapshot
  | 0, _, rungs, s => (rungs, s, [])
  | n + 1, idx, rungs, s =>
    let a := stepAllRungs score ps betas rungs s
    let b := swapPhase score ps betas a.1 a.2
    let c :=
      if doFrack && (frackStep != 0) && ((idx + 1) % frackStep == 0) then
        frackRung0 score ps b.1 b.2
      else b
    let rest := phaseLoop score ps betas doFrack frackStep n (idx + 1) c.1 c.2
    (rest.1, rest.2.1, (c.1.headI.map (expandFull ps)) :: rest.2.2)

/-- Modelled from the spec (§4.5, Schedule Controller): check the walker
floor, short-circuit a zero-iteration run straight to Done with an empty
chain, otherwise initialize the ensembles, run the burn-in phase (with
fracking enabled as configured), then the post-burn phase with fracking
disabled, and report the concatenated rung-0 chain in phase Done. -/
def runFit (score : Score) (cfg : FitConfig) : Except FitError RunResult :=
  if cfg.numWalkers < 2 * freeCount cfg.params then
    .error .configurationError
  else if cfg.iterations = 0 then
    .ok ⟨.done, []⟩
  else
    let betas := ladder cfg.numTemps
    let init := drawRungs (freeParams cfg.params) cfg.numWalkers cfg.numTemps cfg.seed
    let b := burnInSteps cfg.iterations cfg.postBurn
    let burn := phaseLoop score cfg.params betas cfg.fracking cfg.frackStep
      b 0 init.1 init.2
    let post := phaseLoop score cfg.params betas false cfg.frackStep
      cfg.postBurn 0 burn.1 burn.2.1
    .ok ⟨.done, burn.2.2 ++ post.2.2⟩

/-- Modelled from the spec (§4.5): re-running the fit with an identical
seed, configuration and score function — the two runs of the round-trip
property. -/
def rerunFit (score : Score) (cfg : FitConfig) :
    Except FitError RunResult × Except FitError RunResult :=
  (runFit score cfg, runFit score cfg)

/-! ## Convergence monitor (spec §4.7). -/

/-- Modelled from the spec (§4.7): whether one convergence check's
condition holds — the chain length must reach `factor` times the largest
autocorrelation-time estimate, and a numerically undefined estimate
(`none`) never satisfies the condition. -/
def satCheck (factor : ℚ) (c : ℕ × Option ℚ) : Bool :=
  match c.2 with
  | none => false
  | some tau => decide (factor * tau ≤ (c.1 : ℚ))

/-- Modelled from the spec (§3, Convergence State / §4.7): one convergence
check: a satisfying check increments the stable count and convergence is
declared only once the count reaches `minChecks`; a non-satisfying check
resets the count. -/
def convCheck (factor : ℚ) (minChecks : ℕ) (st : ℕ) (c : ℕ × Option ℚ) :
    ℕ × Bool :=
  if satCheck factor c then (st + 1, decide (minChecks ≤ st + 1))
  else (0, false)

/-- Modelled from the spec (§4.5, Converging): feed the monitor a sequence
of checks, stopping at the first declared convergence; returns whether
convergence was ever declared. -/
def convRun (factor : ℚ) (minChecks : ℕ) : ℕ → List (ℕ × Option ℚ) → Bool
  | _, [] => false
  | st, c :: cs =>
    let r := convCheck factor minChecks st c
    if r.2 then true else convRun factor minChecks r.1 cs

/-! ## Upload-token handling (main.py lines 408-479).

The Python variable `upload_token` holds a string on most paths but is
rebound to a *list* of lines while the token file is inspected; the model
keeps both shapes.  Writing a list to the file raises `TypeError` in
Python, so that path cannot reach the fit and is modelled as `none`. -/

/-- The shapes the Python variable `upload_token` can take: a string, or
the list of lines read from the token file. -/
inductive TokenVal where
  | strVal (s : String)
  | linesVal (ls : List String)
  deriving DecidableEq, Repr

/-- Python's `len` on either shape of `upload_token`. -/
def pyLen : TokenVal → ℕ
  | .strVal s => s.length
  | .linesVal ls => ls.length

/-- The `--set-upload-token` option (argparse `nargs='?'`, `const=True`,
`default=False`): absent, given bare, or given a string argument. -/
inductive SetTokenArg where
  | absent
  | bare
  | given (s : String)
  deriving DecidableEq, Repr

/-- Lines 409-414 of `main`: seed `upload_token` with the argument of
`--set-upload-token` when one was supplied (Python truthiness makes an
empty-string argument behave like an absent option), and remember whether
a token must be obtained from the user. -/
def setTokenStep : SetTokenArg → TokenVal × Bool
  | .absent => (.strVal "", false)
  | .bare => (.strVal "", true)
  | .given s => if s = "" then (.strVal "", false) else (.strVal s, true)

/-- Lines 440-451 of `main`: when uploading, read the token file; a
missing file, a line count other than one, or a first line that is not 64
characters long all force prompting the user (leaving `upload_token`
rebound to the raw line list in the latter two cases); a valid file
yields its single 64-character line. -/
def uploadFileStep (upload : Bool) (fileLines : Option (List String))
    (prev : TokenVal × Bool) : TokenVal × Bool :=
  if upload then
    match fileLines with
    | none => (prev.1, true)
    | some ls =>
      if ls.length ≠ 1 then (.linesVal ls, true)
      else if ls.headI.length ≠ 64 then (.linesVal ls, true)
      else (.strVal ls.headI, prev.2)
  else prev

/-- The 64-character token `main` substitutes under `--travis`. -/
def travisTokenStr : String :=
  "1234567890abcdefghijklmnopqrstuvwxyz1234567890abcdefghijklmnopqr"

/-- Lines 457-470 of `main`: keep prompting until the pasted token is
exactly 64 characters long; `none` when the supply of responses runs out
without one (in Python the loop would simply keep blocking). -/
def promptLoop : TokenVal → List String → Option TokenVal
  | tok, rs =>
    if pyLen tok = 64 then some tok
    else
      match rs with
      | [] => none
      | r :: rest => promptLoop (.strVal r) rest

/-- Lines 453-479 of `main`: when a token must be obtained from the user,
substitute the fixed token under `--travis`, run the prompt loop, and
write the result to the token file — writing the line-list shape raises
`TypeError` (modelled `none`).  Returns the final `args.upload_token`
together with what was written to the file, or `none` when the fit is
never reached. -/
def finishToken (travis : Bool) (responses : List String)
    (prev : TokenVal × Bool) : Option (TokenVal × Option String) :=
  if prev.2 then
    match promptLoop (if travis then .strVal travisTokenStr else prev.1) responses with
    | some (.strVal s) => some (.strVal s, some s)
    | some (.linesVal _) => none
    | none => none
  else some (prev.1, none)

/-- The whole upload-token handling of `main` (lines 408-479), composed
from its three stages. -/
def resolveUploadToken (setTok : SetTokenArg) (upload travis : Bool)
    (fileLines : Option (List String)) (responses : List String) :
    Option (TokenVal × Option String) :=
  finishToken travis responses (uploadFileStep upload fileLines (setTokenStep setTok))

/-! ## Concrete instances used to witness the theorems below. -/

/-- A simple deterministic score oracle: flat prior, quadratic
log-likelihood peaked at 1. -/
def exScore : Score := fun v => (0, -(v.headI - 1) * (v.headI - 1))

/-- A score oracle that is constant (flat posterior). -/
def exScoreC : Score := fun _ => (0, 0)

/-- A small two-rung configuration: one free parameter, one parameter
fixed at `1/2`, two walkers, two iterations of which one is post-burn,
fracking every step. -/
def exCfg : FitConfig :=
  ⟨[⟨"a", 0, 10, none⟩, ⟨"k", 0, 1, some (1 / 2)⟩], 2, 2, 2, 1, 1, true, 7⟩

/-- The result of running the fit on `exCfg` (the run succeeds, so the
fallback branch is never taken). -/
def exRes : RunResult :=
  match runFit exScore exCfg with
  | .ok r => r
  | .error _ => ⟨.initializing, []⟩

/-- The first chain entry of the `exCfg` run. -/
def exSnap : Snapshot := exRes.chain.headI

/-- The first walker of the first chain entry of the `exCfg` run. -/
def exVec : List ℚ := exSnap.headI

/-- A no-event dry configuration: zero iterations, otherwise defaults. -/
def exCfgDry : FitConfig := ⟨[], 50, 1, 0, 500, 50, true, 0⟩

/-- A configuration violating the walker floor: one free parameter but
only one walker. -/
def exCfgBad : FitConfig := ⟨[⟨"a", 0, 1, none⟩], 1, 1, 5, 2, 1, false, 0⟩

/-! ## Helper lemmas. -/

/-- Expanding a free vector puts every fixed parameter's value at that
parameter's position of the full-model input. -/
theorem expandFull_fixed :
    ∀ (ps : List Param) (xs : Walker) (i : ℕ) (p : Param) (v : ℚ),
      ps[i]? = some p → p.fixedVal = some v → (expandFull ps xs)[i]? = some v := by
  intro ps
  induction ps with
  | nil => intro xs i p v h _; simp at h
  | cons q qs ih =>
    intro xs i p v h hv
    cases i with
    | zero =>
      simp at h
      subst h
      simp [expandFull, hv]
    | succ j =>
      simp at h
      cases hq : q.fixedVal with
      | none => simpa [expandFull, hq] using ih xs.tail j p v h hv
      | some w => simpa [expandFull, hq] using ih xs j p v h hv

/-- Each phase of `n` steps contributes exactly `n` chain entries. -/
theorem phaseLoop_chain_length (score : Score) (ps : List Param)
    (betas : List ℚ) (doFrack : Bool) (frackStep : ℕ) :
    ∀ (n idx : ℕ) (rungs : List Rung) (s : ℕ),
      (phaseLoop score ps betas doFrack frackStep n idx rungs s).2.2.length = n := by
  intro n
  induction n with
  | zero => intro idx rungs s; rfl
  | succ m ih => intro idx rungs s; simp [phaseLoop, ih]

/-- Every chain entry a phase produces is the expansion of some walker
list. -/
theorem phaseLoop_snapshots (score : Score) (ps : List Param)
    (betas : List ℚ) (doFrack : Bool) (frackStep : ℕ) :
    ∀ (n idx : ℕ) (rungs : List Rung) (s : ℕ) (snap : Snapshot),
      snap ∈ (phaseLoop score ps betas doFrack frackStep n idx rungs s).2.2 →
      ∃ ws : Rung, snap = ws.map (expandFull ps) := by
  intro n
  induction n with
  | zero => intro idx rungs s snap h; simp [phaseLoop] at h
  | succ m ih =>
    intro idx rungs s snap h
    simp only [phaseLoop, List.mem_cons] at h
    rcases h with h | h
    · exact ⟨_, h⟩
    · exact ih _ _ _ snap h

/-- The prompt loop only ever returns a value whose Python length is 64. -/
theorem promptLoop_len (rs : List String) :
    ∀ (t : TokenVal) (tok : TokenVal),
      promptLoop t rs = some tok → pyLen tok = 64 := by
  induction rs with
  | nil =>
    intro t tok h
    rw [promptLoop] at h
    by_cases hl : pyLen t = 64
    · rw [if_pos hl] at h; injection h with h; subst h; exact hl
    · rw [if_neg hl] at h; cases h
  | cons r rest ih =>
    intro t tok h
    rw [promptLoop] at h
    by_cases hl : pyLen t = 64
    · rw [if_pos hl] at h; injection h with h; subst h; exact hl
    · rw [if_neg hl] at h; exact ih (.strVal r) tok h

/-- When no prompting is required, the token in hand is a string that is
empty or read from a valid 64-character token file. -/
theorem uploadStep_good (setTok : SetTokenArg) (upload : Bool)
    (fileLines : Option (List String))
    (h : (uploadFileStep upload fileLines (setTokenStep setTok)).2 = false) :
    ∃ s, (uploadFileStep upload fileLines (setTokenStep setTok)).1 = .strVal s ∧
      (s.length = 0 ∨ s.length = 64) := by
  cases upload with
  | false =>
    cases setTok with
    | absent => exact ⟨"", rfl, Or.inl rfl⟩
    | bare => simp [uploadFileStep, setTokenStep] at h
    | given s =>
      by_cases hs : s = ""
      · refine ⟨"", ?_, Or.inl rfl⟩
        simp [uploadFileStep, setTokenStep, hs]
      · simp [uploadFileStep, setTokenStep, hs] at h
  | true =>
    cases fileLines with
    | none => simp [uploadFileStep] at h
    | some ls =>
      by_cases h1 : ls.length = 1
      · by_cases h2 : ls.headI.length = 64
        · exact ⟨ls.headI, by simp [uploadFileStep, h1, h2], Or.inr h2⟩
        · simp [uploadFileStep, h1, h2] at h
      · simp [uploadFileStep, h1] at h

/-- A monitor requiring at least two consecutive satisfying checks never
declares convergence on a sequence in which no two consecutive checks
satisfy the threshold, starting from a fresh or once-incremented stable
count whose pending check does not satisfy it. -/
theorem convRun_aux (factor : ℚ) (m : ℕ) (hm : 2 ≤ m) :
    ∀ cs : List (ℕ × Option ℚ),
      cs.Chain' (fun a b => ¬(satCheck factor a = true ∧ satCheck factor b = true)) →
      ∀ st : ℕ,
        (st = 0 ∨ (st = 1 ∧ ∀ x, cs.head? = some x → satCheck factor x = false)) →
        convRun factor m st cs = false := by
  intro cs
  induction cs with
  | nil => intro _ st _; rfl
  | cons c cs ih =>
    intro hch st hst
    rw [List.chain'_cons'] at hch
    rw [convRun]
    rcases hst with h0 | ⟨h1, hhead⟩
    · subst h0
      by_cases hs : satCheck factor c = true
      · have hr : convCheck factor m 0 c = (1, false) := by
          simp [convCheck, hs]
          omega
        rw [hr]
        simp only [Bool.false_eq_true, if_false]
        refine ih hch.2 1 (Or.inr ⟨rfl, ?_⟩)
        intro x hx
        have := hch.1 x hx
        rcases hb : satCheck factor x with _ | _
        · rfl
        · exact absurd ⟨hs, hb⟩ this
      · have hr : convCheck factor m 0 c = (0, false) := by
          simp [convCheck, hs]
        rw [hr]
        simp only [Bool.false_eq_true, if_false]
        exact ih hch.2 0 (Or.inl rfl)
    · subst h1
      have hs : satCheck factor c = false := hhead c rfl
      have hr : convCheck factor m 1 c = (0, false) := by
        simp [convCheck, hs]
      rw [hr]
      simp only [Bool.false_eq_true, if_false]
      exact ih hch.2 0 (Or.inl rfl)

/-- C7: with `num_temps = 1` the temperature ladder is the single cold
rung at inverse temperature 1, the swap phase makes no proposals (it
leaves the ensembles and the random stream untouched), and the tempered
acceptance formula at the single rung coincides with the untempered
ensemble sampler's acceptance formula. -/
theorem C7_untempered_degeneration :
    ladder 1 = [1] ∧
    (∀ (score : Score) (ps : List Param) (rungs : List Rung) (s : ℕ),
      swapPhase score ps (ladder 1) rungs s = (rungs, s)) ∧
    (∀ old new : ℚ × ℚ,
      temperedLogAcceptance (ladderBeta 0) old new =
        untemperedLogAcceptance old new) := by
  have hl : ladder 1 = [1] := by
    simp [ladder, ladderBeta, List.range_succ]
  refine ⟨hl, ?_, ?_⟩
  · intro score ps rungs s
    rw [hl]
    rfl
  · intro old new
    simp [temperedLogAcceptance, untemperedLogAcceptance, ladderBeta]

/-- C8: the convergence monitor never declares convergence on the first
check at which the chain-length condition holds — a fresh stable count can
never reach the required minimum of consecutive confirmations in one
check — and a τ estimate oscillating around the threshold (no two
consecutive satisfying checks) is never declared converged. -/
theorem C8_convergence_stability (factor : ℚ) (minChecks : ℕ)
    (hm : 2 ≤ minChecks) :
    (∀ c : ℕ × Option ℚ, (convCheck factor minChecks 0 c).2 = false) ∧
    (∀ cs : List (ℕ × Option ℚ),
      cs.Chain' (fun a b =>
        ¬(satCheck factor a = true ∧ satCheck factor b = true)) →
      convRun factor minChecks 0 cs = false) := by
  constructor
  · intro c
    by_cases hs : satCheck factor c = true
    · simp [convCheck, hs]
      omega
    · simp [convCheck, hs]
  · intro cs hch
    exact convRun_aux factor minChecks hm cs hch 0 (Or.inl rfl)

/-- C8 witness: with a required stability count of two, a single check is
never enough and an oscillating (here: never-satisfying τ-undefined)
sequence is not declared converged. -/
theorem C8_convergence_stability_witness :
    (convCheck 10 2 0 (100, none)).2 = false ∧
    convRun 10 2 0 [(100, none), (200, none)] = false := by
  constructor
  · exact (C8_convergence_stability 10 2 (by decide)).1 (100, none)
  · exact (C8_convergence_stability 10 2 (by decide)).2 _
      (by simp [List.chain'_cons, List.chain'_singleton, satCheck])

/-- C9: the resolved `extrapolate_time` handed to the fitter is the scalar
0.0 when the option is absent, the scalar 100.0 when the option is given
an empty argument list, the user-supplied list otherwise, and is never an
empty list. -/
theorem C9_extrapolate_time_resolution :
    resolveExtrapolateTime (parseExtrapolateTime none) = .scalar 0 ∧
    resolveExtrapolateTime (parseExtrapolateTime (some [])) = .scalar 100 ∧
    (∀ (v : ℚ) (vs : List ℚ),
      resolveExtrapolateTime (parseExtrapolateTime (some (v :: vs))) =
        .listVal (v :: vs)) ∧
    (∀ g, isEmptyTimeList (resolveExtrapolateTime (parseExtrapolateTime g)) =
      false) := by
  refine ⟨rfl, rfl, fun v vs => rfl, fun g => ?_⟩
  cases g with
  | none => rfl
  | some vs =>
    cases vs with
    | nil => rfl
    | cons v vs => rfl

/-- C1: the iteration budget splits into a burn-in phase of exactly
`max(iterations - post_burn, 0)` steps followed by `post_burn` post-burn
steps, so the steps a run performs total burn-in plus post-burn (equal to
`iterations` whenever `post_burn ≤ iterations`, with the burn-in clamped
at zero when `post_burn` exceeds `iterations`); a successful non-trivial
run records exactly that many chain entries. -/
theorem C1_schedule_split :
    ∀ i p : ℕ,
      (burnInSteps i p : ℤ) = max ((i : ℤ) - (p : ℤ)) 0 ∧
      totalSteps i p = burnInSteps i p + p ∧
      (p ≤ i → totalSteps i p = i) ∧
      (i < p → burnInSteps i p = 0) ∧
      (∀ (score : Score) (cfg : FitConfig) (res : RunResult),
        runFit score cfg = .ok res → cfg.iterations ≠ 0 →
        res.chain.length = totalSteps cfg.iterations cfg.postBurn) := by
  intro i p
  refine ⟨?_, rfl, ?_, ?_, ?_⟩
  · show ((i - p : ℕ) : ℤ) = max ((i : ℤ) - (p : ℤ)) 0
    omega
  · intro h
    show (i - p) + p = i
    omega
  · intro h
    show i - p = 0
    omega
  · intro score cfg res hrun hne
    by_cases h1 : cfg.numWalkers < 2 * freeCount cfg.params
    · rw [runFit, if_pos h1] at hrun
      cases hrun
    · rw [runFit, if_neg h1, if_neg hne] at hrun
      simp only [Except.ok.injEq] at hrun
      subst hrun
      simp [totalSteps, phaseLoop_chain_length]

/-- C1 witness: the default configuration splits 1000 iterations as 500
burn-in plus 500 post-burn, and the concrete two-iteration example run
records exactly `totalSteps 2 1 = 2` chain entries. -/
theorem C1_schedule_split_witness :
    totalSteps 1000 500 = 1000 ∧ exRes.chain.length = totalSteps 2 1 :=
  ⟨(C1_schedule_split 1000 500).2.2.1 (by decide),
   (C1_schedule_split 2 1).2.2.2.2 exScore exCfg exRes rfl (by decide)⟩

/-- C2: with the `iterations` sentinel -1 and the events list being the
single empty string, `main` resolves `iterations` to 0, and a fit with a
zero iteration budget (and a configuration meeting the walker floor)
terminates at once in phase Done with an empty chain and no error. -/
theorem C2_zero_iterations_run (events : List String) (score : Score)
    (cfg : FitConfig) (hev : events = [""])
    (hit : cfg.iterations = (resolveIterations (-1) events).toNat)
    (hw : 2 * freeCount cfg.params ≤ cfg.numWalkers) :
    resolveIterations (-1) events = 0 ∧ runFit score cfg = .ok ⟨.done, []⟩ := by
  subst hev
  have h0 : resolveIterations (-1) [""] = 0 := rfl
  refine ⟨h0, ?_⟩
  have hit0 : cfg.iterations = 0 := by rw [hit, h0]; rfl
  rw [runFit, if_neg (Nat.not_lt.mpr hw), if_pos hit0]

/-- C2 witness: the dry configuration (no events, sentinel iterations)
resolves to zero iterations and its run is Done with an empty chain. -/
theorem C2_zero_iterations_run_witness :
    resolveIterations (-1) [""] = 0 ∧ runFit exScore exCfgDry = .ok ⟨.done, []⟩ :=
  C2_zero_iterations_run [""] exScore exCfgDry rfl (by decide) (by decide)

/-- C3: a configuration with fewer than twice as many walkers as free
parameters fails with `ConfigurationError` before any sampling and never
produces a result (hence zero chain entries); it is not silently
corrected. -/
theorem C3_walker_floor_enforced (score : Score) (cfg : FitConfig)
    (h : cfg.numWalkers < 2 * freeCount cfg.params) :
    runFit score cfg = .error .configurationError ∧
    ∀ res : RunResult, runFit score cfg ≠ .ok res := by
  have he : runFit score cfg = .error .configurationError := by
    rw [runFit, if_pos h]
  refine ⟨he, fun res hok => ?_⟩
  rw [he] at hok
  cases hok

/-- C3 witness: one walker against one free parameter is rejected with a
configuration error. -/
theorem C3_walker_floor_enforced_witness :
    runFit exScore exCfgBad = .error .configurationError :=
  (C3_walker_floor_enforced exScore exCfgBad (by decide)).1

/-- C4: in every chain entry of every successful run, every walker's
full-model vector carries each fixed parameter's fixed value unchanged at
that parameter's position. -/
theorem C4_fixed_param_invariant (score : Score) (cfg : FitConfig)
    (res : RunResult) (j k i : ℕ) (snap : Snapshot) (vec : List ℚ)
    (p : Param) (v : ℚ)
    (hrun : runFit score cfg = .ok res)
    (hj : res.chain[j]? = some snap)
    (hk : snap[k]? = some vec)
    (hi : cfg.params[i]? = some p)
    (hv : p.fixedVal = some v) :
    vec[i]? = some v := by
  have hsnap : ∃ ws : Rung, snap = ws.map (expandFull cfg.params) := by
    by_cases h1 : cfg.numWalkers < 2 * freeCount cfg.params
    · rw [runFit, if_pos h1] at hrun
      cases hrun
    · by_cases h2 : cfg.iterations = 0
      · rw [runFit, if_neg h1, if_pos h2] at hrun
        simp only [Except.ok.injEq] at hrun
        subst hrun
        simp at hj
      · rw [runFit, if_neg h1, if_neg h2] at hrun
        simp only [Except.ok.injEq] at hrun
        subst hrun
        have hmem := List.getElem?_mem hj
        simp only [List.mem_append] at hmem
        rcases hmem with hm | hm
        · exact phaseLoop_snapshots _ _ _ _ _ _ _ _ _ snap hm
        · exact phaseLoop_snapshots _ _ _ _ _ _ _ _ _ snap hm
  obtain ⟨ws, rfl⟩ := hsnap
  obtain ⟨w, _, rfl⟩ := List.mem_map.mp (List.getElem?_mem hk)
  exact expandFull_fixed cfg.params w i p v hi hv

/-- C4 witness: in the concrete example run, the first walker of the
first chain entry holds the fixed parameter `k` at its fixed value 1/2. -/
theorem C4_fixed_param_invariant_witness :
    exVec[1]? = some ((1 : ℚ) / 2) :=
  C4_fixed_param_invariant exScore exCfg exRes 0 0 1 exSnap exVec
    ⟨"k", 0, 1, some (1 / 2)⟩ (1 / 2) rfl rfl rfl rfl rfl

/-- C5: fracking never degrades a walker — the score after a fracking
invocation is at least the score before — and the position is replaced
only when the locally optimized score is strictly better, otherwise the
original position is kept. -/
theorem C5_fracking_monotone (score : Score) (ps : List Param)
    (w : Walker) (s : ℕ) :
    totalScore score ps w ≤ totalScore score ps (frackWalker score ps w s).1 ∧
    (totalScore score ps (localOpt score ps frackOptFuel w s).1 ≤
        totalScore score ps w →
      (frackWalker score ps w s).1 = w) := by
  constructor
  · simp only [frackWalker]
    split_ifs with h
    · exact le_of_lt h
    · exact le_refl _
  · intro h2
    simp only [frackWalker]
    rw [if_neg (not_lt.mpr h2)]

/-- C5 witness: under a flat score, fracking leaves the walker's position
untouched. -/
theorem C5_fracking_monotone_witness :
    (frackWalker exScoreC [] ([] : Walker) 0).1 = [] :=
  (C5_fracking_monotone exScoreC [] [] 0).2 (le_refl _)

/-- C6: re-running the fit with the identical seed, configuration and
score function yields identical results, and in particular chains that
are identical entry for entry. -/
theorem C6_seed_determinism (score : Score) (cfg : FitConfig)
    (r1 r2 : RunResult)
    (h1 : (rerunFit score cfg).1 = .ok r1)
    (h2 : (rerunFit score cfg).2 = .ok r2) :
    r1 = r2 ∧ r1.chain = r2.chain := by
  simp only [rerunFit] at h1 h2
  rw [h1] at h2
  injection h2 with h2
  exact ⟨h2, by rw [h2]⟩

/-- C6 witness: the two runs of the concrete example agree. -/
theorem C6_seed_determinism_witness :
    exRes = exRes ∧ exRes.chain = exRes.chain :=
  C6_seed_determinism exScore exCfg exRes exRes rfl rfl

/-- C10: whenever the upload-token handling of `main` completes (so the
fit is reached), the resulting `args.upload_token` is a string that is
either empty or exactly 64 characters long, and anything written to the
token file is a string of exactly 64 characters. -/
theorem C10_upload_token_length (setTok : SetTokenArg) (upload travis : Bool)
    (fileLines : Option (List String)) (responses : List String)
    (tok : TokenVal) (written : Option String)
    (h : resolveUploadToken setTok upload travis fileLines responses =
      some (tok, written)) :
    (∃ s, tok = .strVal s ∧ (s.length = 0 ∨ s.length = 64)) ∧
    (∀ w, written = some w → w.length = 64) := by
  rw [resolveUploadToken, finishToken] at h
  by_cases hg : (uploadFileStep upload fileLines (setTokenStep setTok)).2 = true
  · rw [if_pos hg] at h
    rcases hp : promptLoop
        (if travis then .strVal travisTokenStr
          else (uploadFileStep upload fileLines (setTokenStep setTok)).1)
        responses with _ | tk
    · rw [hp] at h; cases h
    · rw [hp] at h
      have hlen := promptLoop_len responses _ tk hp
      cases tk with
      | strVal s =>
        injection h with h
        injection h with ha hb
        subst ha
        subst hb
        refine ⟨⟨s, rfl, Or.inr hlen⟩, ?_⟩
        intro w hw
        injection hw with hw
        subst hw
        exact hlen
      | linesVal ls => cases h
  · rw [if_neg hg] at h
    injection h with h
    injection h with ha hb
    subst ha
    subst hb
    have hfalse : (uploadFileStep upload fileLines (setTokenStep setTok)).2 = false :=
      by revert hg; cases (uploadFileStep upload fileLines (setTokenStep setTok)).2 <;> simp
    obtain ⟨s, hs, hl⟩ := uploadStep_good setTok upload fileLines hfalse
    exact ⟨⟨s, hs, hl⟩, fun w hw => by cases hw⟩

/-- C10 witness: with no upload and no token request, the token handling
completes with the empty-string token and writes nothing. -/
theorem C10_upload_token_length_witness :
    (∃ s, TokenVal.strVal "" = .strVal s ∧ (s.length = 0 ∨ s.length = 64)) ∧
    (∀ w, (none : Option String) = some w → w.length = 64) :=
  C10_upload_token_length .absent false false none [] (.strVal "") none rfl

end Mosfit
